import Mathlib

/-!
Verification development for the proof-systems repository.

The file shallowly embeds the Rust sources

  * src/oracle/src/utils.rs            (namespace OracleUtils)
  * src/circuits/plonk/src/constraints.rs (namespace Plonk)
  * src/kimchi/src/plonk_sponge.rs     (namespace Kimchi)
  * src/kimchi/src/verifier.rs         (namespace Kimchi)

into Lean definitions, and proves theorems about them.  Machine integers
(usize) are modelled as Nat, field elements as an abstract Lean field F,
fallible Rust functions as Option/Except.  External collaborators
(arkworks field/FFT/sponge primitives, the dlog commitment crate) enter
as explicit function parameters or as structure fields of function type.
-/

set_option maxRecDepth 8000
set_option maxHeartbeats 1000000

/-! # Part 1: definitions -/

/-- The field of eleven elements, used as a small concrete scalar field
for evaluating the embedded operations on explicit inputs. -/
instance fact_prime_eleven : Fact (Nat.Prime 11) :=
  ⟨by norm_num⟩

deriving instance DecidableEq for Except

namespace OracleUtils

variable {F : Type _}

/-- Embedding of PolyUtils::eval_polynomial (src/oracle/src/utils.rs):
Horner evaluation of a coefficient vector, folding from the highest
coefficient down: res = res * x + c. -/
def eval_polynomial [Field F] (coeffs : List F) (x : F) : F :=
  coeffs.foldr (fun c res => res * x + c) 0

/-- Embedding of EvalUtils::shift (src/oracle/src/utils.rs): reduce the
shift amount modulo the number of evaluations, then rotate: the result is
evals[len..] followed by evals[0..len].  (For an empty evaluation vector
the source panics on the modulus; the claim only covers non-empty input.) -/
def shift (evals : List F) (len : Nat) : List F :=
  let len := len % evals.length
  evals.drop len ++ evals.take len

/-- Embedding of PolyUtils::eval (src/oracle/src/utils.rs): chunked
polynomial evaluation.  The source iterates i = 0, size, 2*size, ... over
the coefficient vector and evaluates the slice [i..min(i+size, len)] at
elm (via the external arkworks evaluate, which computes the same value as
eval_polynomial).  The step-by iteration is rendered as structural
recursion on take/drop; a zero chunk size makes the source panic and is
modelled as the empty result. -/
def eval [Field F] (coeffs : List F) (elm : F) (size : Nat) : List F :=
  if h : coeffs.isEmpty ∨ size = 0 then []
  else eval_polynomial (coeffs.take size) elm :: eval (coeffs.drop size) elm size
termination_by coeffs.length
decreasing_by
  simp only [List.isEmpty_iff, not_or] at h
  have h1 : 0 < coeffs.length := List.length_pos.mpr h.1
  have h2 : 0 < size := Nat.pos_of_ne_zero h.2
  simpa using Nat.sub_lt h1 h2

end OracleUtils

namespace Plonk

/-! Embedding of src/circuits/plonk/src/constraints.rs (the 3-wire PLONK
constraint system).  The gate type itself lives in gate.rs, which is not
under src/; only the pieces of it that constraints.rs consumes are
modelled, from the spec. -/

/-- Modelled from the spec: the gate kind tag of gate.rs (not under
src/).  Only the Zero kind is inspected by constraints.rs (padding and
the sigma overwrite filter); the other kinds stand for the remaining
enumerated gate kinds. -/
inductive GateType where
  | Zero
  | Generic
  | Poseidon
  | Add
deriving DecidableEq

/-- Modelled from the spec: CircuitGate of gate.rs (not under src/).
Three wire ports l, r, o, each a pair (local_index, wired_to), a kind
tag, and kind-specific coefficients.  The per-kind selector accessors
(ql, qr, ..) read from c and are consumed only by the external iFFT
interpolation, which is outside this embedding. -/
structure CircuitGate (F : Type _) where
  typ : GateType
  l : Nat × Nat
  r : Nat × Nat
  o : Nat × Nat
  c : List F
deriving DecidableEq

/-- Modelled from the spec: CircuitGate::zero(l, r, o) builds a Zero gate
with the given wire ports (used for padding). -/
def CircuitGate.zero {F : Type _} (l r o : Nat × Nat) : CircuitGate F :=
  ⟨GateType.Zero, l, r, o, []⟩

/-- Modelled from the spec: the d1 evaluation domain of EvaluationDomains
(domains.rs, not under src/): a radix-2 multiplicative subgroup described
by its size and its element list 1, w, w^2, ....  The larger domains
d2..d4, dp are consumed only by external FFT evaluation and are omitted. -/
structure Domain (F : Type _) where
  size : Nat
  elements : List F
deriving DecidableEq

/-- The rejection-sampling loops of ConstraintSystem::create: draw
elements from the sample stream until one satisfies the predicate.  The
source draws from OsRng via the external sample_element_outside_domain;
here the stream is an explicit input, and a stream that never satisfies
the predicate renders the non-terminating source loop as none.  Returns
the accepted element and the unconsumed rest of the stream. -/
def sampleUntil {F : Type _} (p : F → Bool) : List F → Option (F × List F)
  | [] => none
  | x :: xs => if p x then some (x, xs) else sampleUntil p xs

/-- Column c of the triple of sigma base vectors (the source's s array of
three length-n vectors). -/
def sCol {F : Type _} (s : List F × List F × List F) : Nat → List F
  | 0 => s.1
  | 1 => s.2.1
  | _ => s.2.2

/-- The ConstraintSystem record, restricted to the fields the claims
consume.  The omitted source fields (sigmam, the selector polynomials
qlm.., their cached Lagrange evaluations, l0, l1) are images of the data
kept here under the external iFFT / FFT evaluation operations and carry
no independent state. -/
structure ConstraintSystem (F : Type _) where
  public : Nat
  domain : Domain F
  gates : List (CircuitGate F)
  sigmal1 : List F × List F × List F
  sid : List F
  r : F
  o : F
deriving DecidableEq

/-- Embedding of ConstraintSystem::create
(src/circuits/plonk/src/constraints.rs): build the domain, rejection-
sample the two coordinate shifts (isQnr models the external
legendre().is_qnr(), domainsCreate the external EvaluationDomains::create,
samples the OsRng draws of sample_element_outside_domain), pad the gate
list with self-looped Zero gates to the domain size, and overwrite the
identity sigma vectors along the wiring of every non-Zero gate.  The
source's sid extension slices sid[0..3] (a panic for domains smaller
than 3); here take 3 truncates instead, which agrees on every real
domain. -/
def create {F : Type _} [Field F] [DecidableEq F]
    (isQnr : F → Bool) (domainsCreate : Nat → Option (Domain F))
    (gates0 : List (CircuitGate F)) (public : Nat) (samples : List F) :
    Option (ConstraintSystem F) :=
  match domainsCreate gates0.length with
  | none => none
  | some domain =>
    let sid := domain.elements
    match sampleUntil isQnr samples with
    | none => none
    | some (r, samples1) =>
      match sampleUntil (fun o => isQnr o && !(r == o)) samples1 with
      | none => none
      | some (o, _) =>
        let n := domain.size
        let padding := (List.range' gates0.length (n - gates0.length)).map
          (fun i => CircuitGate.zero (i, i) (n + i, n + i) (2 * n + i, 2 * n + i))
        let gates := gates0 ++ padding
        let s : List F × List F × List F :=
          (sid, sid.map (fun elm => r * elm), sid.map (fun elm => o * elm))
        let sigmal1 := (gates.filter (fun g => g.typ ≠ GateType.Zero)).foldl
          (fun (sg : List F × List F × List F) gate =>
            ((sg.1.set gate.l.1 ((sCol s (gate.l.2 / n)).getD (gate.l.2 % n) 0)),
             (sg.2.1.set (gate.r.1 - n) ((sCol s (gate.r.2 / n)).getD (gate.r.2 % n) 0)),
             (sg.2.2.set (gate.o.1 - 2 * n) ((sCol s (gate.o.2 / n)).getD (gate.o.2 % n) 0))))
          s
        let sid := sid ++ sid.take 3
        some { public := public, domain := domain, gates := gates,
               sigmal1 := sigmal1, sid := sid, r := r, o := o }

/-- The default gate used to render the always-in-bounds Rust index
gates[i] as a total Lean lookup. -/
def dummyGate {F : Type _} : CircuitGate F :=
  CircuitGate.zero (0, 0) (0, 0) (0, 0)

/-- Embedding of ConstraintSystem::verify
(src/circuits/plonk/src/constraints.rs): length check, then for every
gate index from public to the end, the three copy constraints and the
gate's own arithmetic identity (gateVerify models the black-box
CircuitGate::verify of gate.rs, with the gate itself as its own successor
on the last row).  The source's early-return-on-violation loop is
rendered as List.all. -/
def verify {F : Type _} [Field F] [DecidableEq F]
    (gateVerify : CircuitGate F → CircuitGate F → List F → Bool)
    (cs : ConstraintSystem F) (witness : List F) : Bool :=
  if witness.length ≠ 3 * cs.domain.size then false
  else (List.range' cs.public (cs.gates.length - cs.public)).all fun i =>
    let g := cs.gates.getD i dummyGate
    (witness.getD g.l.2 0 == witness.getD g.l.1 0) &&
    (witness.getD g.r.2 0 == witness.getD g.r.1 0) &&
    (witness.getD g.o.2 0 == witness.getD g.o.1 0) &&
    gateVerify g
      (if i + 1 = cs.gates.length then g else cs.gates.getD (i + 1) dummyGate)
      witness

/-- The multiset of wired_to targets of a gate list, one triple per gate
(left, right, output), in gate order. -/
def wireTargets {F : Type _} (gates : List (CircuitGate F)) : List Nat :=
  gates.flatMap fun g => [g.l.2, g.r.2, g.o.2]

/-- The permutation invariant: every global wire position below 3n occurs
exactly once as a wired_to target. -/
def permInvariant {F : Type _} (gates : List (CircuitGate F)) (n : Nat) : Prop :=
  ∀ p : Nat, p < 3 * n → (wireTargets gates).count p = 1

/-- The wired_to targets of the identity (self-loop) wiring on rows
[k, n): position triples (i, n+i, 2n+i). -/
def identityTargets (k n : Nat) : List Nat :=
  (List.range' k (n - k)).flatMap fun i => [i, n + i, 2 * n + i]

/-- Concrete test fixture: a quadratic-non-residue test over ZMod 11
declaring exactly 2 and 3 non-residues. -/
def qnrFix : ZMod 11 → Bool := fun x => x == 2 || x == 3

/-- Concrete test fixture: a domain factory returning the one-element
domain with element list [1]. -/
def domFix : Nat → Option (Domain (ZMod 11)) := fun _ => some ⟨1, [1]⟩

/-- Concrete test fixture: the constraint system produced by create with
qnrFix, domFix, no gates, no public inputs and sample stream [2, 3]. -/
def csFix : ConstraintSystem (ZMod 11) :=
  { public := 0
    domain := ⟨1, [1]⟩
    gates := [⟨GateType.Zero, (0, 0), (1, 1), (2, 2), []⟩]
    sigmal1 := ([1], [2], [3])
    sid := [1, 1]
    r := 2
    o := 3 }

end Plonk

namespace Kimchi

/-! Embedding of src/kimchi/src/plonk_sponge.rs and
src/kimchi/src/verifier.rs.  The wire constants come from the kimchi
wires module (not under src/ but fixed by the explicit indices of
plonk_sponge.rs: witness columns w[0..=14] and sigma evaluations
s[0..=5]). -/

/-- The number of witness columns of the kimchi arithmetization. -/
def COLUMNS : Nat := 15

/-- The number of permuted columns of the kimchi arithmetization. -/
def PERMUTS : Nat := 7

instance : NeZero COLUMNS := ⟨by decide⟩

instance : NeZero (PERMUTS - 1) := ⟨by decide⟩

/-- Embedding of the error type consumed by the verifier
(error.rs, with the variants fixed by their uses in verifier.rs). -/
inductive VerifyError where
  | DifferentSRS
  | SRSTooSmall
  | IncorrectPubicInputLength (expected : Nat)
  | IncorrectCommitmentLength (which : String)
  | IncorrectPrevChallengesLength (expected got : Nat)
  | LookupCommitmentMissing
  | LookupEvalsMissing
  | ProofInconsistentLookup
  | IncorrectRuntimeProof
  | OpenProof
deriving DecidableEq

/-- One event of the base-field (Fq) sponge transcript: absorbing a
slice of base-field elements (absorb_fq), absorbing a slice of group
elements (absorb_g), or squeezing a challenge.  The sponge itself
(oracle crate) is external; the transcript records the exact call
sequence, of which every squeezed value is a function. -/
inductive FqEvent (BF G : Type _) where
  | absorbFq (xs : List BF)
  | absorbG (xs : List G)
  | squeeze
deriving DecidableEq

/-- One event of the scalar-field (Fr) sponge transcript: absorbing a
single scalar (the external ArithmeticSponge absorbs slices element by
element) or squeezing a challenge. -/
inductive FrEvent (F : Type _) where
  | absorb (x : F)
  | squeeze
deriving DecidableEq

/-- Embedding of PolyComm (commitment_dlog, consumed by verifier.rs):
an unshifted chunk list plus an optional shifted part. -/
structure PolyComm (G : Type _) where
  unshifted : List G
  shifted : Option G
deriving DecidableEq

/-- The lookup commitments of a proof (proof.rs, fixed by their uses in
verifier.rs): sorted chunk commitments, the aggregation commitment, and
an optional runtime-table commitment. -/
structure LookupCommitments (G : Type _) where
  sorted : List (PolyComm G)
  aggreg : PolyComm G
  runtime : Option (PolyComm G)
deriving DecidableEq

/-- The commitments of a prover proof (proof.rs, fixed by their uses in
verifier.rs). -/
structure ProverCommitments (G : Type _) where
  w_comm : List (PolyComm G)
  z_comm : PolyComm G
  t_comm : PolyComm G
  lookup : Option (LookupCommitments G)
deriving DecidableEq

/-- A previous-round recursion challenge (proof.rs): the challenge
scalars and the corresponding commitment. -/
structure RecursionChallenge (F G : Type _) where
  chals : List F
  comm : PolyComm G
deriving DecidableEq

/-- The lookup block of an evaluation record (proof.rs, fixed by its
uses in plonk_sponge.rs and verifier.rs). -/
structure LookupEvaluations (A : Type _) where
  sorted : List A
  aggreg : A
  table : A
  runtime : Option A
deriving DecidableEq

/-- An evaluation record of a proof (proof.rs): one entry per opened
polynomial; A is List F for the chunked records carried by the proof and
F after combining the chunks. -/
structure ProofEvaluations (A : Type _) where
  z : A
  generic_selector : A
  poseidon_selector : A
  w : Fin COLUMNS → A
  s : Fin (PERMUTS - 1) → A
  lookup : Option (LookupEvaluations A)

instance {A : Type _} [DecidableEq A] : DecidableEq (ProofEvaluations A) := by
  intro a b
  cases a
  cases b
  exact decidable_of_iff _
    (iff_of_eq (ProofEvaluations.mk.injEq _ _ _ _ _ _ _ _ _ _ _ _).symm)

/-- Embedding of ProverProof (proof.rs, the fields consumed by
verifier.rs).  The opening proof itself is consumed only by the external
dlog opener and is not modelled. -/
structure ProverProof (F G : Type _) where
  commitments : ProverCommitments G
  evals : ProofEvaluations (List F) × ProofEvaluations (List F)
  ft_eval1 : F
  public : List F
  prev_challenges : List (RecursionChallenge F G)

/-- The lookup configuration of a verifier index (the two bits of
LookupVerifierIndex that drive the oracle derivation): whether the
lookup argument is joint (multi-column) and whether a runtime-table
selector is present.  The remaining lookup data is consumed only by the
f-commitment / batch assembly, which enters the claims as a black box. -/
structure LookupIndex where
  joint : Bool
  runtimeSel : Bool
deriving DecidableEq

/-- Embedding of the expression-evaluation constants (expr.rs Constants,
the fields fixed by verifier.rs).  The mds matrix and the foreign-field
modulus are consumed only inside the external token interpreter and are
folded into the abstract constant-term evaluator. -/
structure Constants (F : Type _) where
  alpha : F
  beta : F
  gamma : F
  joint_combiner : Option F
  endo_coefficient : F
deriving DecidableEq

/-- Embedding of VerifierIndex (verifier_index.rs, not under src/; the
fields and their meaning are fixed by their uses in verifier.rs and the
spec).  External machinery enters as function-valued fields:
permAlphas models all_alphas.get_alphas(ArgumentType::Permutation, 3)
(modelled from the spec: the three successive powers of alpha of the
Permutation allotment, as a function of the instantiated alpha), and
constTermEval models PolishToken::evaluate of
linearization.constant_term at (zeta, combined evals, constants). -/
structure VerifierIndex (F BF : Type _) where
  domainSize : Nat
  groupGen : F
  sizeInv : F
  maxPolySize : Nat
  srsGLen : Nat
  srsMaxDegree : Nat
  publicLen : Nat
  prevChallengesLen : Nat
  digest : BF
  zkpm : List F
  shift : List F
  endo : F
  lookupIndex : Option LookupIndex
  permAlphas : F → F × F × F
  constTermEval : F → ProofEvaluations F × ProofEvaluations F → Constants F → F

/-- Embedding of RandomOracles (scalars.rs, fields fixed by
verifier.rs).  The ScalarChallenge newtype wrappers are dropped: a raw
challenge is carried as its underlying scalar. -/
structure RandomOracles (F : Type _) where
  joint_combiner : Option (F × F)
  beta : F
  gamma : F
  alpha_chal : F
  alpha : F
  zeta : F
  v : F
  u : F
  zeta_chal : F
  v_chal : F
  u_chal : F
deriving DecidableEq

/-- Embedding of OraclesResult (oracles.rs, fields fixed by
verifier.rs).  all_alphas is omitted: the permutation powers it provides
are recovered through VerifierIndex.permAlphas. -/
structure OraclesResult (F BF G : Type _) where
  fq_sponge : List (FqEvent BF G)
  digest : F
  oracles : RandomOracles F
  public_evals : List F × List F
  powers_of_eval_points_for_chunks : F × F
  polys : List (PolyComm G × List (List F))
  zeta1 : F
  ft_eval0 : F
  combined_inner_product : F
deriving DecidableEq

/-- The abstract sponge operations: the value squeezed by an FqSponge /
FrSponge challenge or digest call is a function of the absorb/squeeze
history, and toField is ScalarChallenge::to_field(endo_r) (the
endomorphism expansion of a 128-bit challenge). -/
structure SpongeOps (F BF G : Type _) where
  sq : List (FqEvent BF G) → F
  fqDigest : List (FqEvent BF G) → F
  frSq : List (FrEvent F) → F
  frDigest : List (FrEvent F) → F
  toField : F → F

/-- The remaining external collaborators of the oracle derivation:
chalEvals is RecursionChallenge::evals(max_poly_size, points, powers)
as a function of the challenge scalars, and cip is the external
combined_inner_product of the commitment crate. -/
structure ExternalOps (F : Type _) where
  chalEvals : Nat → F × F → F × F → List F → List (List F)
  cip : F × F → F → F → List (List (List F) × Option Nat) → Nat → F

/-- FqSponge::absorb_fq on the transcript model. -/
def fqAbsorbFq {BF G : Type _} (st : List (FqEvent BF G)) (xs : List BF) :
    List (FqEvent BF G) :=
  st ++ [FqEvent.absorbFq xs]

/-- FqSponge::absorb_g on the transcript model. -/
def fqAbsorbG {BF G : Type _} (st : List (FqEvent BF G)) (xs : List G) :
    List (FqEvent BF G) :=
  st ++ [FqEvent.absorbG xs]

/-- FqSponge::challenge on the transcript model: the squeezed value is
the abstract function of the history, and a squeeze event is recorded. -/
def fqChallenge {F BF G : Type _} (ops : SpongeOps F BF G) (st : List (FqEvent BF G)) :
    F × List (FqEvent BF G) :=
  (ops.sq st, st ++ [FqEvent.squeeze])

/-- FrSponge::absorb on the transcript model (plonk_sponge.rs: the
last_squeezed reset only affects the limb cache inside the external
sponge; the absorb/squeeze order recorded here determines every squeezed
value). -/
def frAbsorb {F : Type _} (st : List (FrEvent F)) (x : F) : List (FrEvent F) :=
  st ++ [FrEvent.absorb x]

/-- FrSponge::absorb_multiple on the transcript model: the external
sponge absorbs a slice element by element. -/
def frAbsorbMultiple {F : Type _} (st : List (FrEvent F)) (xs : List F) :
    List (FrEvent F) :=
  st ++ xs.map FrEvent.absorb

/-- FrSponge::challenge on the transcript model. -/
def frChallenge {F BF G : Type _} (ops : SpongeOps F BF G) (st : List (FrEvent F)) :
    F × List (FrEvent F) :=
  (ops.frSq st, st ++ [FrEvent.squeeze])

/-- Modelled from the spec: ProofEvaluations::transpose (proof.rs, not
under src/) on the lookup block — present in the transposed record
exactly when present in both inputs, with the sorted vectors paired
positionally and the runtime entries paired when both are present. -/
def transposeLookup {F : Type _} :
    Option (LookupEvaluations (List F)) → Option (LookupEvaluations (List F)) →
      Option (LookupEvaluations (List F × List F))
  | some a, some b =>
    some
      { sorted := a.sorted.zip b.sorted
        aggreg := (a.aggreg, b.aggreg)
        table := (a.table, b.table)
        runtime :=
          match a.runtime, b.runtime with
          | some x, some y => some (x, y)
          | _, _ => none }
  | _, _ => none

/-- Modelled from the spec: ProofEvaluations::transpose (proof.rs, not
under src/) regroups the two evaluation records field by field, so that
each field carries the pair of per-record chunk vectors. -/
def transpose {F : Type _} (e0 e1 : ProofEvaluations (List F)) :
    ProofEvaluations (List F × List F) :=
  { z := (e0.z, e1.z)
    generic_selector := (e0.generic_selector, e1.generic_selector)
    poseidon_selector := (e0.poseidon_selector, e1.poseidon_selector)
    w := fun i => (e0.w i, e1.w i)
    s := fun i => (e0.s i, e1.s i)
    lookup := transposeLookup e0.lookup e1.lookup }

/-- Embedding of DefaultFrSponge::absorb_evaluations
(src/kimchi/src/plonk_sponge.rs): transpose the two records, build the
points list z, generic_selector, poseidon_selector, w[0..=14], s[0..=5],
then — if the lookup block is present — aggreg, table, the sorted
vectors, and runtime if present; finally absorb, for each point, the
record-0 chunks then the record-1 chunks, element by element. -/
def absorb_evaluations {F : Type _} (st : List (FrEvent F))
    (e0 e1 : ProofEvaluations (List F)) : List (FrEvent F) :=
  let e := transpose e0 e1
  let points : List (List F × List F) :=
    [e.z, e.generic_selector, e.poseidon_selector,
     e.w 0, e.w 1, e.w 2, e.w 3, e.w 4, e.w 5, e.w 6, e.w 7,
     e.w 8, e.w 9, e.w 10, e.w 11, e.w 12, e.w 13, e.w 14,
     e.s 0, e.s 1, e.s 2, e.s 3, e.s 4, e.s 5]
  let points := points ++
    (match e.lookup with
     | none => []
     | some l =>
       [l.aggreg, l.table] ++ l.sorted ++
         (match l.runtime with
          | none => []
          | some x => [x]))
  points.foldl (fun acc p => frAbsorbMultiple (frAbsorbMultiple acc p.1) p.2) st

/-- Modelled from the spec: ProofEvaluations::combine (proof.rs, not
under src/) collapses every chunked evaluation with the compactification
map C(chunks, s) = sum_i s^i * chunks[i] at the relevant power of the
evaluation point, which is the same numeric map as
OracleUtils.eval_polynomial. -/
def combine {F : Type _} [Field F] (e : ProofEvaluations (List F)) (pt : F) :
    ProofEvaluations F :=
  { z := OracleUtils.eval_polynomial e.z pt
    generic_selector := OracleUtils.eval_polynomial e.generic_selector pt
    poseidon_selector := OracleUtils.eval_polynomial e.poseidon_selector pt
    w := fun i => OracleUtils.eval_polynomial (e.w i) pt
    s := fun i => OracleUtils.eval_polynomial (e.s i) pt
    lookup := e.lookup.map fun l =>
      { sorted := l.sorted.map fun v => OracleUtils.eval_polynomial v pt
        aggreg := OracleUtils.eval_polynomial l.aggreg pt
        table := OracleUtils.eval_polynomial l.table pt
        runtime := l.runtime.map fun v => OracleUtils.eval_polynomial v pt } }

/-- The element iterator of the index's d1 domain (external arkworks
Radix2EvaluationDomain::elements): 1, w, w^2, ..., w^(n-1). -/
def domainElements {F : Type _} [Field F] (groupGen : F) (n : Nat) : List F :=
  (List.range n).map fun i => groupGen ^ i

/-- The i-th witness-column evaluation of a combined record, as a plain
Nat-indexed read (0 beyond COLUMNS). -/
def wAt {F : Type _} [Field F] (e : ProofEvaluations F) (i : Nat) : F :=
  (List.ofFn e.w).getD i 0

/-- The i-th sigma evaluation of a combined record, as a plain
Nat-indexed read (0 beyond PERMUTS - 1). -/
def sAt {F : Type _} [Field F] (e : ProofEvaluations F) (i : Nat) : F :=
  (List.ofFn e.s).getD i 0

/-- The factor list of the subtracted product inside the source
ft_eval0 computation (src/kimchi/src/verifier.rs lines 314-319): one
factor gamma + beta * zeta * shift_i + w_i per entry of the zip of the
witness evaluations with the index's coordinate shifts. -/
def minusFactors {F BF : Type _} [Field F] (index : VerifierIndex F BF)
    (evals0 : ProofEvaluations F) (beta gamma zeta : F) : List F :=
  ((List.ofFn evals0.w).zip index.shift).map
    fun p => gamma + (beta * zeta * p.2) + p.1

/-- Embedding of the ft_eval0 computation of ProverProof::oracles
(src/kimchi/src/verifier.rs lines 284-349).  index.w() lives in
verifier_index.rs (not under src/) and is modelled from the spec as the
domain generator; the three permutation powers of alpha are
index.permAlphas alpha; PolishToken::evaluate of the linearization
constant term is the abstract index.constTermEval; the source's
denominator.inverse().expect(..) is the total field inverse here (the
claims carry the non-vanishing side conditions). -/
def ft_eval0 {F BF : Type _} [Field F] (index : VerifierIndex F BF)
    (evals0 evals1 : ProofEvaluations F) (public_evals0 : List F)
    (beta gamma zeta alpha : F) (jc : Option F) : F :=
  let n := index.domainSize
  let zkp := OracleUtils.eval_polynomial index.zkpm zeta
  let zeta1m1 := zeta ^ n - 1
  let a3 := index.permAlphas alpha
  let alpha0 := a3.1
  let alpha1 := a3.2.1
  let alpha2 := a3.2.2
  let init := (evals0.w ⟨PERMUTS - 1, by decide⟩ + gamma) * evals1.z * alpha0 * zkp
  let ft := ((List.ofFn evals0.w).zip (List.ofFn evals0.s)).foldl
    (fun x p => x * ((beta * p.2) + p.1 + gamma)) init
  let ft := ft - public_evals0.headD 0
  let ft := ft - ((List.ofFn evals0.w).zip index.shift).foldl
    (fun x p => x * (gamma + (beta * zeta * p.2) + p.1)) (alpha0 * zkp * evals0.z)
  let numerator := ((zeta1m1 * alpha1 * (zeta - index.groupGen))
    + (zeta1m1 * alpha2 * (zeta - 1))) * (1 - evals0.z)
  let denominator := ((zeta - index.groupGen) * (zeta - 1))⁻¹
  let ft := ft + numerator * denominator
  let cs : Constants F :=
    { alpha := alpha, beta := beta, gamma := gamma, joint_combiner := jc,
      endo_coefficient := index.endo }
  ft - index.constTermEval zeta (evals0, evals1) cs

/-- The specification formula for ft(zeta) (spec section 4.5) in its
amended form: the subtracted product ranges over the zip of the COLUMNS
witness evaluations with the PERMUTS coordinate shifts, i.e. over
i < PERMUTS, so it has exactly PERMUTS factors. -/
def ft_eval0_spec {F BF : Type _} [Field F] (index : VerifierIndex F BF)
    (evals0 evals1 : ProofEvaluations F) (public_eval0 : F)
    (beta gamma zeta alpha0 alpha1 alpha2 zkp constant_term : F) : F :=
  let n := index.domainSize
  let omega := index.groupGen
  let init := (wAt evals0 (PERMUTS - 1) + gamma) * evals1.z * alpha0 * zkp
  let perm := (∏ i ∈ Finset.range (PERMUTS - 1),
    ((beta * sAt evals0 i) + wAt evals0 i + gamma)) * init
  let minus := (∏ i ∈ Finset.range PERMUTS,
    (gamma + (beta * zeta * index.shift.getD i 0) + wAt evals0 i))
    * (alpha0 * zkp * evals0.z)
  let zkcorr := ((zeta ^ n - 1) * alpha1 * (zeta - omega)
    + (zeta ^ n - 1) * alpha2 * (zeta - 1)) * (1 - evals0.z)
    / ((zeta - omega) * (zeta - 1))
  perm - public_eval0 - minus + zkcorr - constant_term

/-- The original C1 formula: identical to ft_eval0_spec except that the
subtracted product ranges over all i < COLUMNS, as the claim states.
The verifier index carries only PERMUTS coordinate shifts, so the
missing shift values are read as the default 0; under every reading the
product has COLUMNS factors. -/
def ft_eval0_spec_columns {F BF : Type _} [Field F] (index : VerifierIndex F BF)
    (evals0 evals1 : ProofEvaluations F) (public_eval0 : F)
    (beta gamma zeta alpha0 alpha1 alpha2 zkp constant_term : F) : F :=
  let n := index.domainSize
  let omega := index.groupGen
  let init := (wAt evals0 (PERMUTS - 1) + gamma) * evals1.z * alpha0 * zkp
  let perm := (∏ i ∈ Finset.range (PERMUTS - 1),
    ((beta * sAt evals0 i) + wAt evals0 i + gamma)) * init
  let minus := (∏ i ∈ Finset.range COLUMNS,
    (gamma + (beta * zeta * index.shift.getD i 0) + wAt evals0 i))
    * (alpha0 * zkp * evals0.z)
  let zkcorr := ((zeta ^ n - 1) * alpha1 * (zeta - omega)
    + (zeta ^ n - 1) * alpha2 * (zeta - 1)) * (1 - evals0.z)
    / ((zeta - omega) * (zeta - 1))
  perm - public_eval0 - minus + zkcorr - constant_term

/-- The checks and absorptions of ProverProof::oracles that precede the
t-commitment length check, as a predicate: with lookup configured, the
proof must carry lookup commitments, and a runtime commitment whenever
the index uses a runtime-table selector. -/
def earlierChecksOk {F BF G : Type _} (index : VerifierIndex F BF)
    (commitments : ProverCommitments G) : Bool :=
  match index.lookupIndex with
  | none => true
  | some l =>
    match commitments.lookup with
    | none => false
    | some lc => !l.runtimeSel || lc.runtime.isSome

/-- Embedding of the lookup block of ProverProof::oracles
(src/kimchi/src/verifier.rs lines 83-124): require the lookup
commitments, absorb the runtime commitment when the index uses runtime
tables, squeeze the joint-combiner challenge exactly when the lookup is
joint (zero otherwise), derive its endomorphism image, and absorb the
sorted commitments. -/
def lookupStep {F BF G : Type _} [Field F] (ops : SpongeOps F BF G)
    (index : VerifierIndex F BF) (commitments : ProverCommitments G)
    (st : List (FqEvent BF G)) :
    Except VerifyError (List (FqEvent BF G) × Option (F × F)) :=
  match index.lookupIndex with
  | none => Except.ok (st, none)
  | some l =>
    match commitments.lookup with
    | none => Except.error VerifyError.LookupCommitmentMissing
    | some lookup_commits =>
      let runtimeRes : Except VerifyError (List (FqEvent BF G)) :=
        if l.runtimeSel then
          match lookup_commits.runtime with
          | none => Except.error VerifyError.IncorrectRuntimeProof
          | some runtime_commit => Except.ok (fqAbsorbG st runtime_commit.unshifted)
        else Except.ok st
      match runtimeRes with
      | Except.error e => Except.error e
      | Except.ok st1 =>
        let pr := if l.joint then fqChallenge ops st1 else ((0 : F), st1)
        let joint_combiner := pr.1
        let joint_combiner_field := ops.toField joint_combiner
        let st2 := lookup_commits.sorted.foldl
          (fun acc com => fqAbsorbG acc com.unshifted) pr.2
        Except.ok (st2, some (joint_combiner, joint_combiner_field))

/-- Steps 1-5 of the Fiat-Shamir pipeline of ProverProof::oracles
(src/kimchi/src/verifier.rs lines 62-81): absorb the verifier-index
digest, the previous-challenge commitments, the public commitment, and
the witness commitments. -/
def preLookupTrace {F BF G : Type _} (index : VerifierIndex F BF)
    (proof : ProverProof F G) (public_comm : PolyComm G) : List (FqEvent BF G) :=
  let st : List (FqEvent BF G) := []
  let st := fqAbsorbFq st [index.digest]
  let st := proof.prev_challenges.foldl (fun acc c => fqAbsorbG acc c.comm.unshifted) st
  let st := fqAbsorbG st public_comm.unshifted
  proof.commitments.w_comm.foldl (fun acc c => fqAbsorbG acc c.unshifted) st

/-- The tail of ProverProof::oracles after the t-commitment length check
succeeds (src/kimchi/src/verifier.rs lines 151-433): absorb t, squeeze
and derive zeta, bridge to the Fr sponge via the Fq digest, absorb the
previous-challenge digest, evaluate the negated public polynomial
barycentrically (the external batch inversion is the elementwise field
inverse, which like arkworks maps 0 to 0), absorb ft_eval1, the public
evaluations and both evaluation records, squeeze and derive v and u,
combine the chunked evaluations, compute ft_eval0 and the combined
inner product, and assemble the result record. -/
def oraclesAfterT {F BF G : Type _} [Field F] (ops : SpongeOps F BF G)
    (ext : ExternalOps F) (index : VerifierIndex F BF) (proof : ProverProof F G)
    (joint_combiner : Option (F × F)) (beta gamma alpha_chal alpha : F)
    (st10 : List (FqEvent BF G)) : OraclesResult F BF G :=
  let n := index.domainSize
  let st11 := fqAbsorbG st10 proof.commitments.t_comm.unshifted
  let pz := fqChallenge ops st11
  let zeta_chal := pz.1
  let st12 := pz.2
  let zeta := ops.toField zeta_chal
  let digest := ops.fqDigest st12
  let fr1 := frAbsorb ([] : List (FrEvent F)) digest
  let zeta1 := zeta ^ n
  let zetaw := zeta * index.groupGen
  let evaluation_points := (zeta, zetaw)
  let powers_of_eval_points_for_chunks :=
    (zeta ^ index.maxPolySize, zetaw ^ index.maxPolySize)
  let polys := proof.prev_challenges.map fun challenge =>
    (challenge.comm,
      ext.chalEvals index.maxPolySize evaluation_points
        powers_of_eval_points_for_chunks challenge.chals)
  let prev_challenge_digest := ops.frDigest
    (proof.prev_challenges.foldl (fun acc c => frAbsorbMultiple acc c.chals) [])
  let fr2 := frAbsorb fr1 prev_challenge_digest
  let w := (domainElements index.groupGen n).take proof.public.length
  let zeta_minus_x :=
    (w.map (fun x => zeta - x) ++ w.map (fun x => zetaw - x)).map fun x => x⁻¹
  let public_evals : List F × List F :=
    if proof.public.isEmpty then ([0], [0])
    else
      ([((proof.public.zip zeta_minus_x).zip (domainElements index.groupGen n)).foldl
          (fun acc pl => acc + (-pl.1.2 * pl.1.1 * pl.2)) 0
          * (zeta1 - 1) * index.sizeInv],
       [((proof.public.zip (zeta_minus_x.drop proof.public.length)).zip
            (domainElements index.groupGen n)).foldl
          (fun acc pl => acc + (-pl.1.2 * pl.1.1 * pl.2)) 0
          * index.sizeInv * (zetaw ^ n - 1)])
  let fr3 := frAbsorb fr2 proof.ft_eval1
  let fr4 := frAbsorbMultiple fr3 public_evals.1
  let fr5 := frAbsorbMultiple fr4 public_evals.2
  let fr6 := absorb_evaluations fr5 proof.evals.1 proof.evals.2
  let pv := frChallenge ops fr6
  let v_chal := pv.1
  let v := ops.toField v_chal
  let pu := frChallenge ops pv.2
  let u_chal := pu.1
  let u := ops.toField u_chal
  let evals0 := combine proof.evals.1 powers_of_eval_points_for_chunks.1
  let evals1 := combine proof.evals.2 powers_of_eval_points_for_chunks.2
  let ftv := ft_eval0 index evals0 evals1 public_evals.1 beta gamma zeta alpha
    (joint_combiner.map Prod.snd)
  let combined_inner_product :=
    let es : List (List (List F) × Option Nat) :=
      polys.map (fun pe => (pe.2, none))
      ++ [([public_evals.1, public_evals.2], none),
          ([[ftv], [proof.ft_eval1]], none),
          ([proof.evals.1.z, proof.evals.2.z], none),
          ([proof.evals.1.generic_selector, proof.evals.2.generic_selector], none),
          ([proof.evals.1.poseidon_selector, proof.evals.2.poseidon_selector], none)]
      ++ (List.ofFn fun c : Fin COLUMNS =>
          ([proof.evals.1.w c, proof.evals.2.w c], (none : Option Nat)))
      ++ (List.ofFn fun c : Fin (PERMUTS - 1) =>
          ([proof.evals.1.s c, proof.evals.2.s c], (none : Option Nat)))
    ext.cip evaluation_points v u es index.srsGLen
  { fq_sponge := st12
    digest := digest
    oracles :=
      { joint_combiner := joint_combiner
        beta := beta
        gamma := gamma
        alpha_chal := alpha_chal
        alpha := alpha
        zeta := zeta
        v := v
        u := u
        zeta_chal := zeta_chal
        v_chal := v_chal
        u_chal := u_chal }
    public_evals := public_evals
    powers_of_eval_points_for_chunks := powers_of_eval_points_for_chunks
    polys := polys
    zeta1 := zeta1
    ft_eval0 := ftv
    combined_inner_product := combined_inner_product }

/-- Embedding of ProverProof::oracles (src/kimchi/src/verifier.rs): the
Fiat-Shamir pipeline over the dual transcript.  Steps 1-5, the lookup
block, the beta / gamma / alpha squeezes and the t-commitment length
check appear here in source order; the tail after the successful check
is oraclesAfterT. -/
def oracles {F BF G : Type _} [Field F] (ops : SpongeOps F BF G)
    (ext : ExternalOps F) (index : VerifierIndex F BF) (proof : ProverProof F G)
    (public_comm : PolyComm G) : Except VerifyError (OraclesResult F BF G) :=
  let st4 := preLookupTrace index proof public_comm
  match lookupStep ops index proof.commitments st4 with
  | Except.error e => Except.error e
  | Except.ok (st5, joint_combiner) =>
    let pb := fqChallenge ops st5
    let beta := pb.1
    let pg := fqChallenge ops pb.2
    let gamma := pg.1
    let st7 := pg.2
    let st8 :=
      match proof.commitments.lookup with
      | none => st7
      | some l => fqAbsorbG st7 l.aggreg.unshifted
    let st9 := fqAbsorbG st8 proof.commitments.z_comm.unshifted
    let pa := fqChallenge ops st9
    let alpha_chal := pa.1
    let st10 := pa.2
    let alpha := ops.toField alpha_chal
    if proof.commitments.t_comm.unshifted.length ≠ PERMUTS then
      Except.error (VerifyError.IncorrectCommitmentLength (r"t"))
    else
      Except.ok (oraclesAfterT ops ext index proof joint_combiner
        beta gamma alpha_chal alpha st10)

/-- The SRS loop of batch_verify (src/kimchi/src/verifier.rs lines
936-946): for each index in order, first the SRS-length equality with
the first index's SRS, then the SRS max-degree / domain-size bound; the
first violated check determines the error. -/
def srsChecks {F BF P : Type _} (srsLen : Nat) :
    List (VerifierIndex F BF × P) → Option VerifyError
  | [] => none
  | (index, _) :: rest =>
    if index.srsGLen ≠ srsLen then some VerifyError.DifferentSRS
    else if index.srsMaxDegree < index.domainSize then some VerifyError.SRSTooSmall
    else srsChecks srsLen rest

/-- The to_batch loop of batch_verify: run to_batch on every pair in
order, stopping at the first error. -/
def collectBatch {F BF P B : Type _}
    (to_batch : VerifierIndex F BF → P → Except VerifyError B) :
    List (VerifierIndex F BF × P) → Except VerifyError (List B)
  | [] => Except.ok []
  | (index, proof) :: rest =>
    match to_batch index proof with
    | Except.error e => Except.error e
    | Except.ok b =>
      match collectBatch to_batch rest with
      | Except.error e => Except.error e
      | Except.ok bs => Except.ok (b :: bs)

/-- Embedding of batch_verify (src/kimchi/src/verifier.rs): the empty
batch validates trivially; otherwise the SRS checks run over all
indices, then every proof goes through to_batch (abstract here — the
claims about batch_verify do not depend on its body), and the collected
batch goes to the external dlog opener. -/
def batch_verify {F BF P B : Type _}
    (to_batch : VerifierIndex F BF → P → Except VerifyError B)
    (opener : List B → Bool)
    (proofs : List (VerifierIndex F BF × P)) : Except VerifyError Unit :=
  match proofs with
  | [] => Except.ok ()
  | p0 :: _ =>
    match srsChecks p0.1.srsGLen proofs with
    | some e => Except.error e
    | none =>
      match collectBatch to_batch proofs with
      | Except.error e => Except.error e
      | Except.ok batch =>
        if opener batch then Except.ok () else Except.error VerifyError.OpenProof

/-- The first violated SRS check in batch order (the specification-side
description of the srsChecks scan): per index the length check precedes
the degree check. -/
def firstSrsViolation {F BF P : Type _} (srsLen : Nat)
    (proofs : List (VerifierIndex F BF × P)) : Option VerifyError :=
  proofs.findSome? fun q =>
    if q.1.srsGLen ≠ srsLen then some VerifyError.DifferentSRS
    else if q.1.srsMaxDegree < q.1.domainSize then some VerifyError.SRSTooSmall
    else none

/-- Two evaluation records of the same proof have the same lookup shape:
lookup blocks both present or both absent, and when present with equally
many sorted vectors and runtime entries both present or both absent. -/
def sameLookupShape {F : Type _} (e0 e1 : ProofEvaluations (List F)) : Prop :=
  match e0.lookup, e1.lookup with
  | some l0, some l1 =>
    l0.sorted.length = l1.sorted.length ∧ (l0.runtime.isSome ↔ l1.runtime.isSome)
  | none, none => True
  | _, _ => False

/-- The canonical absorption order stated by the specification for
absorb_evaluations: for each polynomial in the order z,
generic_selector, poseidon_selector, w[0..COLUMNS), s[0..PERMUTS-1),
then — only when the lookup block is present — aggreg, table, the
sorted polynomials in order, and runtime if present, the record-0
chunks followed by the record-1 chunks. -/
def canonicalEvalAbsorptions {F : Type _} (e0 e1 : ProofEvaluations (List F)) :
    List F :=
  (e0.z ++ e1.z)
  ++ (e0.generic_selector ++ e1.generic_selector)
  ++ (e0.poseidon_selector ++ e1.poseidon_selector)
  ++ (e0.w 0 ++ e1.w 0) ++ (e0.w 1 ++ e1.w 1) ++ (e0.w 2 ++ e1.w 2)
  ++ (e0.w 3 ++ e1.w 3) ++ (e0.w 4 ++ e1.w 4) ++ (e0.w 5 ++ e1.w 5)
  ++ (e0.w 6 ++ e1.w 6) ++ (e0.w 7 ++ e1.w 7) ++ (e0.w 8 ++ e1.w 8)
  ++ (e0.w 9 ++ e1.w 9) ++ (e0.w 10 ++ e1.w 10) ++ (e0.w 11 ++ e1.w 11)
  ++ (e0.w 12 ++ e1.w 12) ++ (e0.w 13 ++ e1.w 13) ++ (e0.w 14 ++ e1.w 14)
  ++ (e0.s 0 ++ e1.s 0) ++ (e0.s 1 ++ e1.s 1) ++ (e0.s 2 ++ e1.s 2)
  ++ (e0.s 3 ++ e1.s 3) ++ (e0.s 4 ++ e1.s 4) ++ (e0.s 5 ++ e1.s 5)
  ++ (match e0.lookup, e1.lookup with
      | some l0, some l1 =>
        (l0.aggreg ++ l1.aggreg) ++ (l0.table ++ l1.table)
        ++ ((l0.sorted.zip l1.sorted).map fun p => p.1 ++ p.2).flatten
        ++ (match l0.runtime, l1.runtime with
            | some x0, some x1 => x0 ++ x1
            | _, _ => [])
      | _, _ => [])

/-! Concrete test fixtures over the scalar field ZMod 11, the base field
ZMod 11 and the group Bool, used to evaluate the embedded verifier
pipeline on explicit inputs. -/

/-- Fixture sponge operations whose challenges are the constant 0 and
whose endomorphism map is the constant 2. -/
def opsFix : SpongeOps (ZMod 11) (ZMod 11) Bool :=
  { sq := fun _ => 0
    fqDigest := fun _ => 0
    frSq := fun _ => 0
    frDigest := fun _ => 0
    toField := fun _ => 2 }

/-- Fixture sponge operations whose challenges are the constant 1 and
whose endomorphism map is the constant 2. -/
def opsFix1 : SpongeOps (ZMod 11) (ZMod 11) Bool :=
  { sq := fun _ => 1
    fqDigest := fun _ => 0
    frSq := fun _ => 0
    frDigest := fun _ => 0
    toField := fun _ => 2 }

/-- Fixture external operations: empty recursion evaluations and zero
combined inner product. -/
def extFix : ExternalOps (ZMod 11) :=
  { chalEvals := fun _ _ _ _ => []
    cip := fun _ _ _ _ _ => 0 }

/-- Fixture verifier index: one-row domain with generator 3, all-ones
coordinate shifts, constant zkpm 1, permutation alpha powers (1, 0, 0)
and zero linearization constant term. -/
def idxFix : VerifierIndex (ZMod 11) (ZMod 11) :=
  { domainSize := 1
    groupGen := 3
    sizeInv := 1
    maxPolySize := 1
    srsGLen := 1
    srsMaxDegree := 1
    publicLen := 0
    prevChallengesLen := 0
    digest := 5
    zkpm := [1]
    shift := [1, 1, 1, 1, 1, 1, 1]
    endo := 0
    lookupIndex := none
    permAlphas := fun _ => (1, 0, 0)
    constTermEval := fun _ _ _ => 0 }

/-- Fixture chunked evaluation record: every entry the single chunk [1],
no lookup block. -/
def evalsFix : ProofEvaluations (List (ZMod 11)) :=
  { z := [1]
    generic_selector := [1]
    poseidon_selector := [1]
    w := fun _ => [1]
    s := fun _ => [1]
    lookup := none }

/-- Fixture prover proof: no witness commitments, a PERMUTS-chunk t
commitment, no lookup, no public inputs, no recursion challenges. -/
def proofFix : ProverProof (ZMod 11) Bool :=
  { commitments :=
      { w_comm := []
        z_comm := ⟨[true], none⟩
        t_comm := ⟨[true, true, true, true, true, true, true], none⟩
        lookup := none }
    evals := (evalsFix, evalsFix)
    ft_eval1 := 0
    public := []
    prev_challenges := [] }

/-- Fixture public commitment (empty unshifted part). -/
def pcommFix : PolyComm Bool := ⟨[], none⟩

/-- The Fq transcript of the fixture run at the point of the quotient
commitment check (after the alpha squeeze). -/
def st10Fix : List (FqEvent (ZMod 11) Bool) :=
  [FqEvent.absorbFq [5], FqEvent.absorbG [], FqEvent.squeeze, FqEvent.squeeze,
   FqEvent.absorbG [true], FqEvent.squeeze]

/-- The oracle result of the fixture run with the constant-0 sponge. -/
def resFix : OraclesResult (ZMod 11) (ZMod 11) Bool :=
  oraclesAfterT opsFix extFix idxFix proofFix none 0 0 0 2 st10Fix

/-- The oracle result of the fixture run with the constant-1 sponge. -/
def resFix1 : OraclesResult (ZMod 11) (ZMod 11) Bool :=
  oraclesAfterT opsFix1 extFix idxFix proofFix none 1 1 1 2 st10Fix

/-- Fixture verifier index for the batch SRS checks: SRS length 1,
ample degree. -/
def idxA : VerifierIndex (ZMod 11) (ZMod 11) :=
  { domainSize := 1
    groupGen := 0
    sizeInv := 0
    maxPolySize := 0
    srsGLen := 1
    srsMaxDegree := 5
    publicLen := 0
    prevChallengesLen := 0
    digest := 0
    zkpm := []
    shift := []
    endo := 0
    lookupIndex := none
    permAlphas := fun a => (a, a, a)
    constTermEval := fun _ _ _ => 0 }

/-- Fixture chunked evaluation record with a lookup block (two sorted
vectors, a runtime entry). -/
def evalsLk0 : ProofEvaluations (List (ZMod 11)) :=
  { z := [1]
    generic_selector := [2]
    poseidon_selector := [3]
    w := fun _ => [4]
    s := fun _ => [5]
    lookup := some { sorted := [[6], [7]], aggreg := [8], table := [9], runtime := some [10] } }

/-- A second fixture evaluation record of the same shape as evalsLk0. -/
def evalsLk1 : ProofEvaluations (List (ZMod 11)) :=
  { z := [10]
    generic_selector := [9]
    poseidon_selector := [8]
    w := fun _ => [7]
    s := fun _ => [6]
    lookup := some { sorted := [[5], [4]], aggreg := [3], table := [2], runtime := some [1] } }

/-- Fixture verifier index for the batch SRS checks: SRS length 2 (a
mismatch with idxA) and SRS max degree 0 below its domain size 1 (a
degree shortfall). -/
def idxB : VerifierIndex (ZMod 11) (ZMod 11) :=
  { domainSize := 1
    groupGen := 0
    sizeInv := 0
    maxPolySize := 0
    srsGLen := 2
    srsMaxDegree := 0
    publicLen := 0
    prevChallengesLen := 0
    digest := 0
    zkpm := []
    shift := []
    endo := 0
    lookupIndex := none
    permAlphas := fun a => (a, a, a)
    constTermEval := fun _ _ _ => 0 }

end Kimchi

/-! # Part 2: theorems -/

namespace OracleUtils

variable {F : Type _}

theorem shift_eq_rotate (evals : List F) (len : Nat) (h : evals ≠ []) :
    shift evals len = evals.rotate len := by
  have hpos : 0 < evals.length := List.length_pos.mpr h
  rw [shift, ← List.rotate_mod evals len]
  exact (List.rotate_eq_drop_append_take (Nat.le_of_lt (Nat.mod_lt _ hpos))).symm

/-- C9: EvalUtils::shift is the cyclic left rotation by len mod m: the
length is preserved, every entry moves to position (i + len mod m) mod m,
and shifting by a multiple of the length is the identity. -/
theorem shift_is_cyclic_rotation (evals : List F) (len : Nat) (h : evals ≠ []) :
    (shift evals len).length = evals.length ∧
    (∀ i : Nat, i < evals.length →
      (shift evals len)[i]? = evals[(i + len % evals.length) % evals.length]?) ∧
    (len % evals.length = 0 → shift evals len = evals) := by
  refine ⟨by simp only [shift, List.length_append, List.length_drop, List.length_take]; omega,
    ?_, ?_⟩
  · intro i hi
    rw [shift_eq_rotate evals len h, ← List.rotate_mod evals len,
      List.getElem?_rotate hi]
  · intro h0
    simp [shift, h0]

theorem eval_polynomial_cons [Field F] (c : F) (cs : List F) (x : F) :
    eval_polynomial (c :: cs) x = eval_polynomial cs x * x + c := rfl

theorem eval_polynomial_append [Field F] (a b : List F) (x : F) :
    eval_polynomial (a ++ b) x =
      eval_polynomial a x + x ^ a.length * eval_polynomial b x := by
  induction a with
  | nil => simp [eval_polynomial]
  | cons c cs ih =>
    simp only [List.cons_append, eval_polynomial_cons, ih, List.length_cons]
    ring

theorem eval_nil [Field F] (x : F) (size : Nat) : eval ([] : List F) x size = [] := by
  rw [eval]; simp

theorem eval_cons_chunk [Field F] (coeffs : List F) (x : F) (size : Nat)
    (hne : coeffs ≠ []) (hs : size ≠ 0) :
    eval coeffs x size =
      eval_polynomial (coeffs.take size) x :: eval (coeffs.drop size) x size := by
  rw [eval]
  simp [hne, hs]

theorem eval_length_aux [Field F] (x : F) (size : Nat) (hs : 1 ≤ size) :
    ∀ n : Nat, ∀ coeffs : List F, coeffs.length ≤ n →
      (eval coeffs x size).length = (coeffs.length + size - 1) / size := by
  intro n
  induction n with
  | zero =>
    intro c hc
    have : c = [] := List.length_eq_zero.mp (Nat.le_zero.mp hc)
    subst this
    simp [eval_nil, Nat.div_eq_of_lt (show size - 1 < size by omega)]
  | succ n ih =>
    intro c hc
    by_cases hne : c = []
    · subst hne
      simp [eval_nil, Nat.div_eq_of_lt (show size - 1 < size by omega)]
    · have hm : 1 ≤ c.length := List.length_pos.mpr hne
      rw [eval_cons_chunk c x size hne (by omega), List.length_cons,
        ih (c.drop size) (by simp [List.length_drop]; omega), List.length_drop]
      have h1 : c.length + size - 1 = (c.length - 1) + size := by omega
      rw [h1, Nat.add_div_right _ (by omega)]
      by_cases hcs : c.length ≤ size
      · have h2 : c.length - size = 0 := by omega
        rw [h2, Nat.div_eq_of_lt (by omega), Nat.div_eq_of_lt (by omega)]
      · have h3 : c.length - size + size - 1 = (c.length - size - 1) + size := by omega
        rw [h3, Nat.add_div_right _ (by omega)]
        have h4 : c.length - 1 = (c.length - size - 1) + size := by omega
        rw [h4, Nat.add_div_right _ (by omega)]

theorem eval_recombine_aux [Field F] (x : F) (size : Nat) (hs : 1 ≤ size) :
    ∀ n : Nat, ∀ coeffs : List F, coeffs.length ≤ n →
      ∑ i ∈ Finset.range (eval coeffs x size).length,
        x ^ (i * size) * (eval coeffs x size).getD i 0 = eval_polynomial coeffs x := by
  intro n
  induction n with
  | zero =>
    intro c hc
    have : c = [] := List.length_eq_zero.mp (Nat.le_zero.mp hc)
    subst this
    simp [eval_nil, eval_polynomial]
  | succ n ih =>
    intro c hc
    by_cases hne : c = []
    · subst hne
      simp [eval_nil, eval_polynomial]
    · have hm : 1 ≤ c.length := List.length_pos.mpr hne
      rw [eval_cons_chunk c x size hne (by omega), List.length_cons,
        Finset.sum_range_succ']
      have hrest := ih (c.drop size) (by simp [List.length_drop]; omega)
      have hstep : ∀ i : Nat,
          x ^ ((i + 1) * size) *
            (eval_polynomial (c.take size) x :: eval (c.drop size) x size).getD (i + 1) 0 =
          x ^ size * (x ^ (i * size) * (eval (c.drop size) x size).getD i 0) := by
        intro i
        simp only [List.getD_cons_succ, add_mul, one_mul, pow_add]
        ring
      simp only [hstep, ← Finset.mul_sum, hrest, List.getD_cons_zero]
      conv_rhs => rw [← List.take_append_drop size c, eval_polynomial_append]
      by_cases hcs : c.length ≤ size
      · have hdrop : c.drop size = [] := by
          apply List.eq_nil_of_length_eq_zero
          simp only [List.length_drop]
          omega
        rw [hdrop]
        simp only [eval_polynomial, List.foldr_nil, mul_zero]
        ring
      · have htake : (c.take size).length = size := by
          simp only [List.length_take]
          omega
        rw [htake]
        ring

/-- C10: PolyUtils::eval returns one value per size-length chunk of the
coefficient vector (so ceil(len/size) values, and none for the zero
polynomial), and the chunks recombine to the full evaluation:
summing x^(i*size) times the i-th chunk value gives the polynomial
evaluated at x. -/
theorem eval_chunked_spec [Field F] (coeffs : List F) (x : F) (size : Nat)
    (hs : 1 ≤ size) :
    (eval coeffs x size).length = (coeffs.length + size - 1) / size ∧
    (coeffs = [] → eval coeffs x size = []) ∧
    ∑ i ∈ Finset.range (eval coeffs x size).length,
      x ^ (i * size) * (eval coeffs x size).getD i 0 = eval_polynomial coeffs x := by
  refine ⟨eval_length_aux x size hs coeffs.length coeffs le_rfl, ?_,
    eval_recombine_aux x size hs coeffs.length coeffs le_rfl⟩
  intro h
  subst h
  exact eval_nil x size

theorem eval_chunked_spec_witness :
    (1 : Nat) ≤ 2 ∧
    ((eval ([1, 2, 3, 4, 5] : List ℚ) 2 2).length = (5 + 2 - 1) / 2 ∧
      (([1, 2, 3, 4, 5] : List ℚ) = [] → eval ([1, 2, 3, 4, 5] : List ℚ) 2 2 = []) ∧
      ∑ i ∈ Finset.range (eval ([1, 2, 3, 4, 5] : List ℚ) 2 2).length,
        (2 : ℚ) ^ (i * 2) * (eval ([1, 2, 3, 4, 5] : List ℚ) 2 2).getD i 0 =
          eval_polynomial ([1, 2, 3, 4, 5] : List ℚ) 2) :=
  ⟨by decide, eval_chunked_spec ([1, 2, 3, 4, 5] : List ℚ) 2 2 (by decide)⟩

theorem shift_is_cyclic_rotation_witness :
    (([10, 20, 30] : List ℚ) ≠ [] →
      (shift ([10, 20, 30] : List ℚ) 5).length = 3 ∧
        shift ([10, 20, 30] : List ℚ) 5 = [30, 10, 20]) ∧
    (shift ([10, 20, 30] : List ℚ) 5).length = 3 ∧
      shift ([10, 20, 30] : List ℚ) 5 = [30, 10, 20] ∧
      shift ([10, 20, 30] : List ℚ) 6 = [10, 20, 30] := by
  constructor
  · intro hne
    exact ⟨(shift_is_cyclic_rotation ([10, 20, 30] : List ℚ) 5 hne).1, by decide⟩
  · refine ⟨(shift_is_cyclic_rotation ([10, 20, 30] : List ℚ) 5 (by decide)).1, by decide, ?_⟩
    exact (shift_is_cyclic_rotation ([10, 20, 30] : List ℚ) 6 (by decide)).2.2 (by decide)

end OracleUtils

namespace Plonk

theorem sampleUntil_spec {F : Type _} (p : F → Bool) :
    ∀ l : List F, ∀ x rest, sampleUntil p l = some (x, rest) →
      p x = true ∧ x ∈ l ∧ ∀ y ∈ rest, y ∈ l := by
  intro l
  induction l with
  | nil => intro x rest h; simp [sampleUntil] at h
  | cons a as ih =>
    intro x rest h
    rw [sampleUntil] at h
    by_cases hp : p a = true
    · rw [if_pos hp] at h
      simp only [Option.some.injEq, Prod.mk.injEq] at h
      obtain ⟨hx, hr⟩ := h
      subst hx
      subst hr
      exact ⟨hp, List.mem_cons_self a as, fun y hy => List.mem_cons_of_mem a hy⟩
    · rw [if_neg hp] at h
      obtain ⟨p1, hm, hsub⟩ := ih x rest h
      exact ⟨p1, List.mem_cons_of_mem a hm,
        fun y hy => List.mem_cons_of_mem a (hsub y hy)⟩

/-- C6: whenever ConstraintSystem::create succeeds, the two coordinate
shifts r and o it stores are quadratic non-residues (under the external
legendre().is_qnr() test, modelled by isQnr), they are distinct, and —
under the contract of the external sample_element_outside_domain, namely
that every drawn sample lies outside the domain d1 — both lie outside
d1. -/
theorem create_shift_properties {F : Type _} [Field F] [DecidableEq F]
    (isQnr : F → Bool) (domainsCreate : Nat → Option (Domain F))
    (gates0 : List (CircuitGate F)) (public : Nat) (samples : List F)
    (cs : ConstraintSystem F)
    (h : create isQnr domainsCreate gates0 public samples = some cs)
    (hout : ∀ x ∈ samples, x ∉ cs.domain.elements) :
    isQnr cs.r = true ∧ isQnr cs.o = true ∧ cs.r ≠ cs.o ∧
      cs.r ∉ cs.domain.elements ∧ cs.o ∉ cs.domain.elements := by
  rw [create] at h
  split at h
  · simp at h
  · rename_i dom hd
    split at h
    · simp at h
    · rename_i r samples1 hs1
      split at h
      · simp at h
      · rename_i o rest hs2
        simp only [Option.some.injEq] at h
        subst h
        obtain ⟨hr1, hrm, hsub1⟩ := sampleUntil_spec isQnr samples r samples1 hs1
        obtain ⟨ho1, hom, hsub2⟩ := sampleUntil_spec _ samples1 o rest hs2
        simp only [Bool.and_eq_true, Bool.not_eq_true'] at ho1
        refine ⟨hr1, ho1.1, ?_, hout r hrm, hout o (hsub1 o hom)⟩
        intro hro
        have hbeq := beq_iff_eq.mpr hro
        rw [hbeq] at ho1
        exact absurd ho1.2 (by decide)

theorem create_shift_properties_witness :
    create qnrFix domFix [] 0 [2, 3] = some csFix ∧
    (∀ x ∈ ([2, 3] : List (ZMod 11)), x ∉ csFix.domain.elements) ∧
    (qnrFix csFix.r = true ∧ qnrFix csFix.o = true ∧ csFix.r ≠ csFix.o ∧
      csFix.r ∉ csFix.domain.elements ∧ csFix.o ∉ csFix.domain.elements) :=
  ⟨by decide, by decide,
    create_shift_properties qnrFix domFix [] 0 [2, 3] csFix (by decide) (by decide)⟩

end Plonk

namespace Plonk

/-- C5: ConstraintSystem::verify returns true exactly when the witness
has length 3n (n the d1 size) and, for every gate index i from public to
the end of the (padded) gate list, the three copy constraints hold and
the gate's own black-box arithmetic identity (gateVerify) holds on the
witness against the next gate, the gate standing in for its own successor
on the last row. -/
theorem verify_iff {F : Type _} [Field F] [DecidableEq F]
    (gateVerify : CircuitGate F → CircuitGate F → List F → Bool)
    (cs : ConstraintSystem F) (witness : List F) :
    verify gateVerify cs witness = true ↔
      (witness.length = 3 * cs.domain.size ∧
        ∀ i : Nat, cs.public ≤ i → i < cs.gates.length →
          (witness.getD (cs.gates.getD i dummyGate).l.2 0 =
              witness.getD (cs.gates.getD i dummyGate).l.1 0 ∧
            witness.getD (cs.gates.getD i dummyGate).r.2 0 =
              witness.getD (cs.gates.getD i dummyGate).r.1 0 ∧
            witness.getD (cs.gates.getD i dummyGate).o.2 0 =
              witness.getD (cs.gates.getD i dummyGate).o.1 0 ∧
            gateVerify (cs.gates.getD i dummyGate)
              (if i + 1 = cs.gates.length then cs.gates.getD i dummyGate
               else cs.gates.getD (i + 1) dummyGate) witness = true)) := by
  rw [verify]
  by_cases hlen : witness.length = 3 * cs.domain.size
  · rw [if_neg (by omega)]
    constructor
    · intro hall
      rw [List.all_eq_true] at hall
      refine ⟨hlen, fun i h1 h2 => ?_⟩
      have hmem : i ∈ List.range' cs.public (cs.gates.length - cs.public) := by
        rw [List.mem_range'_1]
        omega
      have := hall i hmem
      simp only [Bool.and_eq_true, beq_iff_eq] at this
      exact ⟨this.1.1.1, this.1.1.2, this.1.2, this.2⟩
    · rintro ⟨-, hfor⟩
      rw [List.all_eq_true]
      intro i hmem
      rw [List.mem_range'_1] at hmem
      have := hfor i hmem.1 (by omega)
      simp only [Bool.and_eq_true, beq_iff_eq]
      exact ⟨⟨⟨this.1, this.2.1⟩, this.2.2.1⟩, this.2.2.2⟩
  · rw [if_pos (by omega)]
    simp only [Bool.false_eq_true, false_iff, not_and]
    intro h
    exact absurd h hlen

theorem wireTargets_append {F : Type _} (a b : List (CircuitGate F)) :
    wireTargets (a ++ b) = wireTargets a ++ wireTargets b := by
  simp [wireTargets]

theorem wireTargets_padding {F : Type _} (k n : Nat) :
    wireTargets ((List.range' k (n - k)).map
      (fun i =>
        (CircuitGate.zero (i, i) (n + i, n + i) (2 * n + i, 2 * n + i) : CircuitGate F))) =
      identityTargets k n := by
  rw [wireTargets, identityTargets, List.flatMap_def, List.flatMap_def, List.map_map]
  rfl

/-- C8: after a successful create on a gate list of length k at most the
domain size n, the stored gate list has length exactly n, every position
in [k, n) holds a Zero gate whose three ports are the self-loops
(i, i), (n+i, n+i), (2n+i, 2n+i), and if every position below 3n occurs
exactly once as a wired_to target of the input wiring extended by the
identity on the padding rows, then the padded gate list satisfies the
permutation invariant. -/
theorem create_padding {F : Type _} [Field F] [DecidableEq F]
    (isQnr : F → Bool) (domainsCreate : Nat → Option (Domain F))
    (gates0 : List (CircuitGate F)) (public : Nat) (samples : List F)
    (cs : ConstraintSystem F)
    (h : create isQnr domainsCreate gates0 public samples = some cs)
    (hk : gates0.length ≤ cs.domain.size) :
    cs.gates.length = cs.domain.size ∧
    (∀ i : Nat, gates0.length ≤ i → i < cs.domain.size →
      cs.gates.getD i dummyGate =
        CircuitGate.zero (i, i) (cs.domain.size + i, cs.domain.size + i)
          (2 * cs.domain.size + i, 2 * cs.domain.size + i)) ∧
    ((∀ p : Nat, p < 3 * cs.domain.size →
        (wireTargets gates0 ++ identityTargets gates0.length cs.domain.size).count p = 1) →
      permInvariant cs.gates cs.domain.size) := by
  rw [create] at h
  split at h
  · simp at h
  · rename_i dom hd
    split at h
    · simp at h
    · rename_i r samples1 hs1
      split at h
      · simp at h
      · rename_i o rest hs2
        simp only [Option.some.injEq] at h
        subst h
        simp only at hk ⊢
        refine ⟨?_, ?_, ?_⟩
        · simp only [List.length_append, List.length_map, List.length_range']
          omega
        · intro i h1 h2
          rw [List.getD_append_right _ _ _ _ h1,
            List.getD_eq_getElem _ _ (by
              simp only [List.length_map, List.length_range']
              omega)]
          rw [List.getElem_map, List.getElem_range']
          have hadd : gates0.length + 1 * (i - gates0.length) = i := by omega
          rw [hadd]
        · intro hinv
          rw [permInvariant]
          intro p hp
          rw [wireTargets_append, wireTargets_padding]
          exact hinv p hp

theorem create_padding_witness :
    create qnrFix domFix [] 0 [2, 3] = some csFix ∧
    ([] : List (CircuitGate (ZMod 11))).length ≤ csFix.domain.size ∧
    (csFix.gates.length = csFix.domain.size ∧
      (∀ i : Nat, ([] : List (CircuitGate (ZMod 11))).length ≤ i → i < csFix.domain.size →
        csFix.gates.getD i dummyGate =
          CircuitGate.zero (i, i) (csFix.domain.size + i, csFix.domain.size + i)
            (2 * csFix.domain.size + i, 2 * csFix.domain.size + i)) ∧
      ((∀ p : Nat, p < 3 * csFix.domain.size →
          (wireTargets ([] : List (CircuitGate (ZMod 11))) ++
            identityTargets 0 csFix.domain.size).count p = 1) →
        permInvariant csFix.gates csFix.domain.size)) :=
  ⟨by decide, by decide,
    create_padding qnrFix domFix [] 0 [2, 3] csFix (by decide) (by decide)⟩

end Plonk

namespace Kimchi

theorem foldl_absorbPairs {F : Type _} (pairs : List (List F × List F)) :
    ∀ init : List (FrEvent F),
      pairs.foldl (fun acc p => frAbsorbMultiple (frAbsorbMultiple acc p.1) p.2) init =
        init ++ ((pairs.map fun p => p.1 ++ p.2).flatten.map FrEvent.absorb) := by
  induction pairs with
  | nil => intro init; simp
  | cons p ps ih =>
    intro init
    rw [List.foldl_cons, ih]
    simp [frAbsorbMultiple, List.append_assoc]

/-- C3: absorb_evaluations appends to the Fr transcript exactly the
canonical absorption order — z, generic_selector, poseidon_selector,
w[0..COLUMNS), s[0..PERMUTS-1), then, only when the lookup block is
present, aggreg, table, every sorted polynomial in order and runtime if
present, each polynomial contributing its record-0 chunks then its
record-1 chunks — with nothing else absorbed and nothing skipped. -/
theorem absorb_evaluations_canonical {F : Type _} (st : List (FrEvent F))
    (e0 e1 : ProofEvaluations (List F)) (hshape : sameLookupShape e0 e1) :
    absorb_evaluations st e0 e1 =
      st ++ (canonicalEvalAbsorptions e0 e1).map FrEvent.absorb := by
  simp only [absorb_evaluations]
  rw [foldl_absorbPairs]
  refine congrArg (fun t => st ++ t) ?_
  refine congrArg (List.map FrEvent.absorb) ?_
  rcases hl0 : e0.lookup with _ | l0 <;> rcases hl1 : e1.lookup with _ | l1
  · simp [transpose, transposeLookup, hl0, hl1, canonicalEvalAbsorptions,
      List.append_assoc]
  · rw [sameLookupShape, hl0, hl1] at hshape
    exact absurd hshape (by simp)
  · rw [sameLookupShape, hl0, hl1] at hshape
    exact absurd hshape (by simp)
  · have hshape' :
        l0.sorted.length = l1.sorted.length ∧ (l0.runtime.isSome ↔ l1.runtime.isSome) := by
      rw [sameLookupShape, hl0, hl1] at hshape
      exact hshape
    rcases hr0 : l0.runtime with _ | x0 <;> rcases hr1 : l1.runtime with _ | x1
    · simp [transpose, transposeLookup, hl0, hl1, hr0, hr1, canonicalEvalAbsorptions,
        List.append_assoc]
    · rw [hr0, hr1] at hshape'
      simp at hshape'
    · rw [hr0, hr1] at hshape'
      simp at hshape'
    · simp [transpose, transposeLookup, hl0, hl1, hr0, hr1, canonicalEvalAbsorptions,
        List.append_assoc]

end Kimchi

namespace Kimchi

theorem absorb_evaluations_canonical_witness :
    sameLookupShape evalsLk0 evalsLk1 ∧
    absorb_evaluations ([] : List (FrEvent (ZMod 11))) evalsLk0 evalsLk1 =
      [] ++ (canonicalEvalAbsorptions evalsLk0 evalsLk1).map FrEvent.absorb :=
  ⟨⟨rfl, Iff.rfl⟩,
    absorb_evaluations_canonical [] evalsLk0 evalsLk1 ⟨rfl, Iff.rfl⟩⟩

theorem lookupStep_spec {F BF G : Type _} [Field F] (ops : SpongeOps F BF G)
    (index : VerifierIndex F BF) (comms : ProverCommitments G)
    (st : List (FqEvent BF G)) :
    (earlierChecksOk index comms = true ∧
      ∃ pr, lookupStep ops index comms st = Except.ok pr) ∨
    (earlierChecksOk index comms = false ∧
      ∃ e, lookupStep ops index comms st = Except.error e ∧
        e ≠ VerifyError.IncorrectCommitmentLength (r"t")) := by
  cases hli : index.lookupIndex with
  | none =>
    left
    exact ⟨by simp [earlierChecksOk, hli], (st, none), by simp [lookupStep, hli]⟩
  | some l =>
    cases hpl : comms.lookup with
    | none =>
      right
      refine ⟨by simp [earlierChecksOk, hli, hpl],
        VerifyError.LookupCommitmentMissing, by simp [lookupStep, hli, hpl], ?_⟩
      intro hcon
      exact VerifyError.noConfusion hcon
    | some lc =>
      cases hrt : l.runtimeSel with
      | false =>
        left
        constructor
        · simp [earlierChecksOk, hli, hpl, hrt]
        · simp only [lookupStep, hli, hpl, hrt, Bool.false_eq_true, if_false]
          exact ⟨_, rfl⟩
      | true =>
        cases hrc : lc.runtime with
        | none =>
          right
          refine ⟨by simp [earlierChecksOk, hli, hpl, hrt, hrc],
            VerifyError.IncorrectRuntimeProof,
            by simp [lookupStep, hli, hpl, hrt, hrc], ?_⟩
          intro hcon
          exact VerifyError.noConfusion hcon
        | some rc =>
          left
          constructor
          · simp [earlierChecksOk, hli, hpl, hrt, hrc]
          · simp only [lookupStep, hli, hpl, hrt, hrc, if_true]
            exact ⟨_, rfl⟩

end Kimchi

namespace Kimchi

theorem oraclesAfterT_fq_sponge {F BF G : Type _} [Field F] (ops : SpongeOps F BF G)
    (ext : ExternalOps F) (index : VerifierIndex F BF) (proof : ProverProof F G)
    (jc : Option (F × F)) (beta gamma alpha_chal alpha : F)
    (st10 : List (FqEvent BF G)) :
    (oraclesAfterT ops ext index proof jc beta gamma alpha_chal alpha st10).fq_sponge =
      st10 ++ [FqEvent.absorbG proof.commitments.t_comm.unshifted, FqEvent.squeeze] ∧
    (oraclesAfterT ops ext index proof jc beta gamma alpha_chal alpha st10).oracles.zeta_chal =
      ops.sq (st10 ++ [FqEvent.absorbG proof.commitments.t_comm.unshifted]) := by
  constructor <;> simp [oraclesAfterT, fqAbsorbG, fqChallenge]

/-- C2: oracles returns IncorrectCommitmentLength for t exactly when the
earlier lookup checks pass and the t commitment does not have PERMUTS
unshifted chunks; and on every success the t commitment had PERMUTS
chunks and was absorbed into the Fq sponge immediately before — and
adjacent to — the squeeze that produces the zeta challenge. -/
theorem oracles_t_length_check {F BF G : Type _} [Field F] (ops : SpongeOps F BF G)
    (ext : ExternalOps F) (index : VerifierIndex F BF) (proof : ProverProof F G)
    (public_comm : PolyComm G) :
    (oracles ops ext index proof public_comm =
        Except.error (VerifyError.IncorrectCommitmentLength (r"t")) ↔
      earlierChecksOk index proof.commitments = true ∧
        proof.commitments.t_comm.unshifted.length ≠ PERMUTS) ∧
    (∀ res : OraclesResult F BF G,
      oracles ops ext index proof public_comm = Except.ok res →
      proof.commitments.t_comm.unshifted.length = PERMUTS ∧
      ∃ st : List (FqEvent BF G),
        res.fq_sponge =
          st ++ [FqEvent.absorbG proof.commitments.t_comm.unshifted, FqEvent.squeeze] ∧
        res.oracles.zeta_chal =
          ops.sq (st ++ [FqEvent.absorbG proof.commitments.t_comm.unshifted])) := by
  rcases lookupStep_spec ops index proof.commitments
      (preLookupTrace index proof public_comm) with
    ⟨hok, ⟨st5, jc⟩, hlk⟩ | ⟨hbad, e, hlk, hne⟩
  · constructor
    · constructor
      · intro herr
        simp only [oracles, hlk] at herr
        by_cases hT : proof.commitments.t_comm.unshifted.length = PERMUTS
        · rw [if_neg (fun hcon => hcon hT)] at herr
          exact absurd herr (by simp)
        · exact ⟨hok, hT⟩
      · rintro ⟨-, hT⟩
        simp only [oracles, hlk]
        rw [if_pos hT]
    · intro res hres
      simp only [oracles, hlk] at hres
      by_cases hT : proof.commitments.t_comm.unshifted.length = PERMUTS
      · rw [if_neg (fun hcon => hcon hT)] at hres
        simp only [Except.ok.injEq] at hres
        subst hres
        exact ⟨hT, _, (oraclesAfterT_fq_sponge ops ext index proof jc _ _ _ _ _).1,
          (oraclesAfterT_fq_sponge ops ext index proof jc _ _ _ _ _).2⟩
      · rw [if_pos hT] at hres
        exact absurd hres (by simp)
  · constructor
    · constructor
      · intro herr
        simp only [oracles, hlk] at herr
        simp only [Except.error.injEq] at herr
        exact absurd herr hne
      · rintro ⟨hok2, -⟩
        rw [hbad] at hok2
        exact Bool.noConfusion hok2
    · intro res hres
      simp only [oracles, hlk] at hres
      exact absurd hres (by simp)

end Kimchi

namespace Kimchi

/-- C7: from the transcript state left by the lookup absorptions (or by
the witness absorptions when no lookup is configured), beta is squeezed
first and gamma second, and the oracle record carries both as the raw
squeezed challenges — the right-hand sides are the plain challenge
function of the transcript, with no endomorphism derivation (ops.toField)
applied to either. -/
theorem oracles_beta_gamma_raw {F BF G : Type _} [Field F] (ops : SpongeOps F BF G)
    (ext : ExternalOps F) (index : VerifierIndex F BF) (proof : ProverProof F G)
    (public_comm : PolyComm G) (st5 : List (FqEvent BF G)) (jc : Option (F × F))
    (hlk : lookupStep ops index proof.commitments
      (preLookupTrace index proof public_comm) = Except.ok (st5, jc))
    (res : OraclesResult F BF G)
    (h : oracles ops ext index proof public_comm = Except.ok res) :
    res.oracles.beta = ops.sq st5 ∧
    res.oracles.gamma = ops.sq (st5 ++ [FqEvent.squeeze]) := by
  simp only [oracles, hlk] at h
  by_cases hT : proof.commitments.t_comm.unshifted.length = PERMUTS
  · rw [if_neg (fun hcon => hcon hT)] at h
    simp only [Except.ok.injEq] at h
    subst h
    constructor <;> simp [oraclesAfterT, fqChallenge]
  · rw [if_pos hT] at h
    exact absurd h (by simp)

theorem oracles_beta_gamma_raw_witness :
    lookupStep opsFix idxFix proofFix.commitments
        (preLookupTrace idxFix proofFix pcommFix) =
      Except.ok ([FqEvent.absorbFq [5], FqEvent.absorbG []], none) ∧
    oracles opsFix extFix idxFix proofFix pcommFix = Except.ok resFix ∧
    (resFix.oracles.beta = opsFix.sq [FqEvent.absorbFq [5], FqEvent.absorbG []] ∧
      resFix.oracles.gamma =
        opsFix.sq ([FqEvent.absorbFq [5], FqEvent.absorbG []] ++ [FqEvent.squeeze])) :=
  ⟨by rfl, by rfl,
    oracles_beta_gamma_raw opsFix extFix idxFix proofFix pcommFix
      [FqEvent.absorbFq [5], FqEvent.absorbG []] none (by rfl) resFix (by rfl)⟩

end Kimchi

namespace Kimchi

theorem foldl_mul_zip_eq_prod {F : Type _} [Field F] (g : F → F → F) :
    ∀ (a b : List F) (init : F),
      (a.zip b).foldl (fun x p => x * g p.1 p.2) init =
        init * ∏ i ∈ Finset.range (min a.length b.length), g (a.getD i 0) (b.getD i 0) := by
  intro a
  induction a with
  | nil => intro b init; simp
  | cons x a ih =>
    intro b init
    cases b with
    | nil => simp
    | cons y b =>
      simp only [List.zip_cons_cons, List.foldl_cons, ih, List.length_cons]
      rw [Nat.succ_min_succ, Finset.prod_range_succ']
      simp only [List.getD_cons_succ, List.getD_cons_zero]
      ring

theorem getD_ofFn_lt {F : Type _} [Field F] {n : Nat} (f : Fin n → F) (i : Nat)
    (h : i < n) :
    (List.ofFn f).getD i 0 = f ⟨i, h⟩ := by
  rw [List.getD_eq_getElem _ _ (by simpa using h)]
  simp

/-- The source's ft_eval0 equals the (amended) specification formula:
given PERMUTS coordinate shifts, the permutation product has PERMUTS - 1
factors, the subtracted product has exactly PERMUTS factors (the zip of
the COLUMNS witness evaluations with the PERMUTS shifts), and the other
terms coincide literally. -/
theorem ft_eval0_eq_spec {F BF : Type _} [Field F] (index : VerifierIndex F BF)
    (evals0 evals1 : ProofEvaluations F) (pe : List F)
    (beta gamma zeta alpha : F) (jc : Option F)
    (hshift : index.shift.length = PERMUTS) :
    ft_eval0 index evals0 evals1 pe beta gamma zeta alpha jc =
      ft_eval0_spec index evals0 evals1 (pe.headD 0) beta gamma zeta
        (index.permAlphas alpha).1 (index.permAlphas alpha).2.1
        (index.permAlphas alpha).2.2
        (OracleUtils.eval_polynomial index.zkpm zeta)
        (index.constTermEval zeta (evals0, evals1)
          { alpha := alpha, beta := beta, gamma := gamma, joint_combiner := jc,
            endo_coefficient := index.endo }) := by
  have hperm := foldl_mul_zip_eq_prod (fun a b => (beta * b) + a + gamma)
    (List.ofFn evals0.w) (List.ofFn evals0.s)
    ((evals0.w ⟨PERMUTS - 1, by decide⟩ + gamma) * evals1.z *
      (index.permAlphas alpha).1 * OracleUtils.eval_polynomial index.zkpm zeta)
  have hminus := foldl_mul_zip_eq_prod (fun a b => gamma + (beta * zeta * b) + a)
    (List.ofFn evals0.w) index.shift
    ((index.permAlphas alpha).1 * OracleUtils.eval_polynomial index.zkpm zeta * evals0.z)
  simp only [List.length_ofFn, hshift] at hperm hminus
  rw [show min COLUMNS (PERMUTS - 1) = PERMUTS - 1 from by decide] at hperm
  rw [show min COLUMNS PERMUTS = PERMUTS from by decide] at hminus
  simp only [ft_eval0, ft_eval0_spec]
  rw [hperm, hminus]
  simp only [wAt, sAt, div_eq_mul_inv]
  rw [getD_ofFn_lt evals0.w (PERMUTS - 1) (by decide)]
  ring

end Kimchi

namespace Kimchi

/-- C1 (amended): on every successful run of oracles — with the PERMUTS
coordinate shifts of the verifier index and the non-vanishing of
(zeta - omega) and (zeta - 1) assumed by the source's expect — the
returned ft_eval0 equals the specification formula with the subtracted
'minus' product taken over the zip of the COLUMNS witness evaluations
with the PERMUTS shifts, i.e. with exactly PERMUTS factors (the original
claim's product over all COLUMNS columns is refuted by the
counterexample). -/
theorem oracles_ft_eval0_spec {F BF G : Type _} [Field F] (ops : SpongeOps F BF G)
    (ext : ExternalOps F) (index : VerifierIndex F BF) (proof : ProverProof F G)
    (public_comm : PolyComm G) (res : OraclesResult F BF G)
    (h : oracles ops ext index proof public_comm = Except.ok res)
    (hshift : index.shift.length = PERMUTS)
    (h1 : res.oracles.zeta - index.groupGen ≠ 0)
    (h2 : res.oracles.zeta - 1 ≠ 0) :
    res.ft_eval0 =
      ft_eval0_spec index
        (combine proof.evals.1 (res.oracles.zeta ^ index.maxPolySize))
        (combine proof.evals.2 ((res.oracles.zeta * index.groupGen) ^ index.maxPolySize))
        (res.public_evals.1.headD 0)
        res.oracles.beta res.oracles.gamma res.oracles.zeta
        (index.permAlphas res.oracles.alpha).1
        (index.permAlphas res.oracles.alpha).2.1
        (index.permAlphas res.oracles.alpha).2.2
        (OracleUtils.eval_polynomial index.zkpm res.oracles.zeta)
        (index.constTermEval res.oracles.zeta
          (combine proof.evals.1 (res.oracles.zeta ^ index.maxPolySize),
           combine proof.evals.2 ((res.oracles.zeta * index.groupGen) ^ index.maxPolySize))
          { alpha := res.oracles.alpha
            beta := res.oracles.beta
            gamma := res.oracles.gamma
            joint_combiner := res.oracles.joint_combiner.map Prod.snd
            endo_coefficient := index.endo }) := by
  rcases hlkt : lookupStep ops index proof.commitments
      (preLookupTrace index proof public_comm) with e | ⟨st5, jc⟩
  · simp only [oracles, hlkt] at h
    exact absurd h (by simp)
  · simp only [oracles, hlkt] at h
    by_cases hT : proof.commitments.t_comm.unshifted.length = PERMUTS
    · rw [if_neg (fun hcon => hcon hT)] at h
      simp only [Except.ok.injEq] at h
      subst h
      simp only [oraclesAfterT]
      exact ft_eval0_eq_spec index _ _ _ _ _ _ _ _ hshift
    · rw [if_pos hT] at h
      exact absurd h (by simp)

end Kimchi

namespace Kimchi

theorem oracles_ft_eval0_spec_witness :
    oracles opsFix extFix idxFix proofFix pcommFix = Except.ok resFix ∧
    idxFix.shift.length = PERMUTS ∧
    resFix.oracles.zeta - idxFix.groupGen ≠ 0 ∧
    resFix.oracles.zeta - 1 ≠ 0 ∧
    resFix.ft_eval0 =
      ft_eval0_spec idxFix
        (combine proofFix.evals.1 (resFix.oracles.zeta ^ idxFix.maxPolySize))
        (combine proofFix.evals.2 ((resFix.oracles.zeta * idxFix.groupGen) ^ idxFix.maxPolySize))
        (resFix.public_evals.1.headD 0)
        resFix.oracles.beta resFix.oracles.gamma resFix.oracles.zeta
        (idxFix.permAlphas resFix.oracles.alpha).1
        (idxFix.permAlphas resFix.oracles.alpha).2.1
        (idxFix.permAlphas resFix.oracles.alpha).2.2
        (OracleUtils.eval_polynomial idxFix.zkpm resFix.oracles.zeta)
        (idxFix.constTermEval resFix.oracles.zeta
          (combine proofFix.evals.1 (resFix.oracles.zeta ^ idxFix.maxPolySize),
           combine proofFix.evals.2 ((resFix.oracles.zeta * idxFix.groupGen) ^ idxFix.maxPolySize))
          { alpha := resFix.oracles.alpha
            beta := resFix.oracles.beta
            gamma := resFix.oracles.gamma
            joint_combiner := resFix.oracles.joint_combiner.map Prod.snd
            endo_coefficient := idxFix.endo }) :=
  ⟨by rfl, by rfl, by decide, by decide,
    oracles_ft_eval0_spec opsFix extFix idxFix proofFix pcommFix resFix
      (by rfl) (by rfl) (by decide) (by decide)⟩

theorem inv_ten_zmod : ((10 : ZMod 11))⁻¹ = 10 :=
  inv_eq_of_mul_eq_one_right (by decide)

theorem resFix1_ft_eval0_eq_one : resFix1.ft_eval0 = 1 := by
  have h1 : resFix1.ft_eval0 =
      ft_eval0 idxFix (combine proofFix.evals.1 ((2 : ZMod 11) ^ 1))
        (combine proofFix.evals.2 (((2 : ZMod 11) * 3) ^ 1)) [0] 1 1 2 2 none := rfl
  rw [h1]
  simp only [ft_eval0]
  rw [show ((2 : ZMod 11) - idxFix.groupGen) * ((2 : ZMod 11) - 1) = 10 from by decide,
    inv_ten_zmod]
  decide

theorem specColumnsFix_eq_two :
    ft_eval0_spec_columns idxFix
      (combine proofFix.evals.1 ((2 : ZMod 11) ^ 1))
      (combine proofFix.evals.2 (((2 : ZMod 11) * 3) ^ 1))
      (0 : ZMod 11) 1 1 2 1 0 0 1 0 = 2 := by
  simp only [ft_eval0_spec_columns]
  rw [div_eq_mul_inv,
    show ((2 : ZMod 11) - idxFix.groupGen) * ((2 : ZMod 11) - 1) = 10 from by decide,
    inv_ten_zmod]
  decide

/-- Counterexample to C1 as stated: on a successful oracles run over
ZMod 11 (constant-1 sponge challenges, endomorphism map constant 2,
all-ones shifts and witness evaluations), the returned ft_eval0 is 1
while the claim's formula — the subtracted product taken over all
i < COLUMNS — yields 2; moreover the subtracted product of the source
has exactly PERMUTS = 7 factors, not COLUMNS = 15. -/
theorem oracles_ft_eval0_columns_counterexample :
    oracles opsFix1 extFix idxFix proofFix pcommFix = Except.ok resFix1 ∧
    resFix1.ft_eval0 ≠
      ft_eval0_spec_columns idxFix
        (combine proofFix.evals.1 (resFix1.oracles.zeta ^ idxFix.maxPolySize))
        (combine proofFix.evals.2 ((resFix1.oracles.zeta * idxFix.groupGen) ^ idxFix.maxPolySize))
        (resFix1.public_evals.1.headD 0)
        resFix1.oracles.beta resFix1.oracles.gamma resFix1.oracles.zeta
        (idxFix.permAlphas resFix1.oracles.alpha).1
        (idxFix.permAlphas resFix1.oracles.alpha).2.1
        (idxFix.permAlphas resFix1.oracles.alpha).2.2
        (OracleUtils.eval_polynomial idxFix.zkpm resFix1.oracles.zeta)
        (idxFix.constTermEval resFix1.oracles.zeta
          (combine proofFix.evals.1 (resFix1.oracles.zeta ^ idxFix.maxPolySize),
           combine proofFix.evals.2 ((resFix1.oracles.zeta * idxFix.groupGen) ^ idxFix.maxPolySize))
          { alpha := resFix1.oracles.alpha
            beta := resFix1.oracles.beta
            gamma := resFix1.oracles.gamma
            joint_combiner := resFix1.oracles.joint_combiner.map Prod.snd
            endo_coefficient := idxFix.endo }) ∧
    (minusFactors idxFix
        (combine proofFix.evals.1 (resFix1.oracles.zeta ^ idxFix.maxPolySize))
        resFix1.oracles.beta resFix1.oracles.gamma resFix1.oracles.zeta).length = PERMUTS ∧
    PERMUTS ≠ COLUMNS := by
  refine ⟨by rfl, ?_, by rfl, by decide⟩
  have hc : resFix1.ft_eval0 = 1 := resFix1_ft_eval0_eq_one
  have hs : ft_eval0_spec_columns idxFix
      (combine proofFix.evals.1 (resFix1.oracles.zeta ^ idxFix.maxPolySize))
      (combine proofFix.evals.2 ((resFix1.oracles.zeta * idxFix.groupGen) ^ idxFix.maxPolySize))
      (resFix1.public_evals.1.headD 0)
      resFix1.oracles.beta resFix1.oracles.gamma resFix1.oracles.zeta
      (idxFix.permAlphas resFix1.oracles.alpha).1
      (idxFix.permAlphas resFix1.oracles.alpha).2.1
      (idxFix.permAlphas resFix1.oracles.alpha).2.2
      (OracleUtils.eval_polynomial idxFix.zkpm resFix1.oracles.zeta)
      (idxFix.constTermEval resFix1.oracles.zeta
        (combine proofFix.evals.1 (resFix1.oracles.zeta ^ idxFix.maxPolySize),
         combine proofFix.evals.2 ((resFix1.oracles.zeta * idxFix.groupGen) ^ idxFix.maxPolySize))
        { alpha := resFix1.oracles.alpha
          beta := resFix1.oracles.beta
          gamma := resFix1.oracles.gamma
          joint_combiner := resFix1.oracles.joint_combiner.map Prod.snd
          endo_coefficient := idxFix.endo }) = 2 := specColumnsFix_eq_two
  rw [hc, hs]
  decide

end Kimchi

namespace Kimchi

theorem srsChecks_eq_firstSrsViolation {F BF P : Type _} (srsLen : Nat)
    (proofs : List (VerifierIndex F BF × P)) :
    srsChecks srsLen proofs = firstSrsViolation srsLen proofs := by
  induction proofs with
  | nil => rfl
  | cons p rest ih =>
    obtain ⟨index, pr⟩ := p
    rw [srsChecks, firstSrsViolation, List.findSome?_cons]
    by_cases h1 : index.srsGLen ≠ srsLen
    · simp [h1]
    · by_cases h2 : index.srsMaxDegree < index.domainSize
      · simp [h1, h2]
      · simp only [if_neg h1, if_neg (by omega : ¬ index.srsMaxDegree < index.domainSize)]
        rw [ih, firstSrsViolation]

/-- C4 (amended): for a non-empty batch, batch_verify returns
DifferentSRS exactly when the first violated SRS check in scan order
(per index: SRS-length equality with the first index's SRS before the
SRS-degree / domain-size bound) is a length mismatch, and SRSTooSmall
exactly when it is a degree shortfall — for every to_batch and opener,
so the checks decide the outcome before any proof reaches to_batch or
the opener. -/
theorem batch_verify_srs_checks {F BF P B : Type _}
    (to_batch : VerifierIndex F BF → P → Except VerifyError B)
    (opener : List B → Bool) (p0 : VerifierIndex F BF × P)
    (rest : List (VerifierIndex F BF × P))
    (hto : ∀ q ∈ p0 :: rest,
      to_batch q.1 q.2 ≠ Except.error VerifyError.DifferentSRS ∧
      to_batch q.1 q.2 ≠ Except.error VerifyError.SRSTooSmall) :
    (batch_verify to_batch opener (p0 :: rest) = Except.error VerifyError.DifferentSRS ↔
      firstSrsViolation p0.1.srsGLen (p0 :: rest) = some VerifyError.DifferentSRS) ∧
    (batch_verify to_batch opener (p0 :: rest) = Except.error VerifyError.SRSTooSmall ↔
      firstSrsViolation p0.1.srsGLen (p0 :: rest) = some VerifyError.SRSTooSmall) := by
  have hnb : ∀ l : List (VerifierIndex F BF × P),
      (∀ q ∈ l, to_batch q.1 q.2 ≠ Except.error VerifyError.DifferentSRS ∧
        to_batch q.1 q.2 ≠ Except.error VerifyError.SRSTooSmall) →
      ∀ e, collectBatch to_batch l = Except.error e →
        e ≠ VerifyError.DifferentSRS ∧ e ≠ VerifyError.SRSTooSmall := by
    intro l
    induction l with
    | nil => intro _ e he; rw [collectBatch] at he; exact absurd he (by simp)
    | cons q qs ih =>
      intro hq e he
      rw [collectBatch] at he
      rcases hb : to_batch q.1 q.2 with eb | b
      · rw [hb] at he
        simp only [Except.error.injEq] at he
        subst he
        exact ⟨(hq q (List.mem_cons_self q qs)).1 ∘ (hb ▸ congrArg Except.error),
          (hq q (List.mem_cons_self q qs)).2 ∘ (hb ▸ congrArg Except.error)⟩
      · rw [hb] at he
        rcases hc : collectBatch to_batch qs with ec | bs
        · rw [hc] at he
          simp only [Except.error.injEq] at he
          subst he
          exact ih (fun r hr => hq r (List.mem_cons_of_mem q hr)) ec hc
        · rw [hc] at he
          exact absurd he (by simp)
  simp only [batch_verify]
  rw [srsChecks_eq_firstSrsViolation]
  rcases hv : firstSrsViolation p0.1.srsGLen (p0 :: rest) with _ | e
  · rcases hc : collectBatch to_batch (p0 :: rest) with ec | bs
    · have hne := hnb (p0 :: rest) hto ec hc
      simp [hc, hne.1, hne.2]
    · by_cases ho : opener bs = true
      · simp [hc, ho]
      · simp [hc, ho]
  · simp

end Kimchi

namespace Kimchi

theorem batch_verify_srs_checks_witness :
    (∀ q ∈ [(idxA, ()), (idxB, ())],
      (fun (_ : VerifierIndex (ZMod 11) (ZMod 11)) (_ : Unit) =>
          (Except.ok () : Except VerifyError Unit)) q.1 q.2 ≠
        Except.error VerifyError.DifferentSRS ∧
      (fun (_ : VerifierIndex (ZMod 11) (ZMod 11)) (_ : Unit) =>
          (Except.ok () : Except VerifyError Unit)) q.1 q.2 ≠
        Except.error VerifyError.SRSTooSmall) ∧
    ((batch_verify
        (fun (_ : VerifierIndex (ZMod 11) (ZMod 11)) (_ : Unit) =>
          (Except.ok () : Except VerifyError Unit))
        (fun _ => true) ((idxA, ()) :: [(idxB, ())]) =
          Except.error VerifyError.DifferentSRS ↔
      firstSrsViolation (idxA, ()).1.srsGLen ((idxA, ()) :: [(idxB, ())]) =
        some VerifyError.DifferentSRS) ∧
    (batch_verify
        (fun (_ : VerifierIndex (ZMod 11) (ZMod 11)) (_ : Unit) =>
          (Except.ok () : Except VerifyError Unit))
        (fun _ => true) ((idxA, ()) :: [(idxB, ())]) =
          Except.error VerifyError.SRSTooSmall ↔
      firstSrsViolation (idxA, ()).1.srsGLen ((idxA, ()) :: [(idxB, ())]) =
        some VerifyError.SRSTooSmall)) :=
  ⟨by decide,
    batch_verify_srs_checks
      (fun (_ : VerifierIndex (ZMod 11) (ZMod 11)) (_ : Unit) =>
        (Except.ok () : Except VerifyError Unit))
      (fun _ => true) (idxA, ()) [(idxB, ())] (by decide)⟩

/-- Counterexample to C4 as stated: in the batch [idxA, idxB], idxB's
SRS max degree 0 is smaller than its domain size 1, so the claim
demands SRSTooSmall; but idxB also has a different SRS length than the
first index and the length check runs first, so batch_verify returns
DifferentSRS. -/
theorem batch_verify_srs_counterexample :
    batch_verify
        (fun (_ : VerifierIndex (ZMod 11) (ZMod 11)) (_ : Unit) =>
          (Except.ok () : Except VerifyError Unit))
        (fun _ => true) [(idxA, ()), (idxB, ())] =
      Except.error VerifyError.DifferentSRS ∧
    idxB.srsMaxDegree < idxB.domainSize ∧
    VerifyError.DifferentSRS ≠ VerifyError.SRSTooSmall :=
  ⟨by rfl, by decide, by decide⟩

end Kimchi
